import Mathlib

/-!
Verification of the crawl scheduler of the WebCrawler repository.

The embedding covers:
- `web_crawler.py` : the simple sequential `WebCrawler.crawl` loop;
- `crawl.py`       : `WebCrawler.crawl` in both its single-threaded and its
  batch (thread-pool) form, `WebCrawler.fetch_with_retry`,
  `WebCrawler.load_robots_txt` / `WebCrawler.can_fetch` (together with the
  CPython `urllib.robotparser.RobotFileParser` semantics they rely on);
- `template/crawl_async.py` : `AsyncWebCrawler.crawl` and
  `AsyncWebCrawler.fetch_with_retry`, whose batch logic coincides with the
  thread-pool variant of `crawl.py` (the model below covers both);
- `rate_limiter.py` : the three rate limiters.

Python sets of URLs are modelled as duplicate-free lists (insertion order
kept); network and parsing effects are oracles passed in as functions.
Time is modelled with `ℚ`.
-/

namespace WebCrawler

/-- Insertion into a Python set, modelled on lists: `s.add(u)` leaves the set
unchanged when `u` is present, otherwise appends it. -/
def addSet (s : List String) (u : String) : List String :=
  if u ∈ s then s else s ++ [u]

/-- The link-enqueue statement shared by all crawl loops:
`if link not in visited and link not in to_visit: to_visit.append(link)`. -/
def enqueue (visited : List String) (queue : List String) (link : String) :
    List String :=
  if link ∈ visited ∨ link ∈ queue then queue else queue ++ [link]

/-- Enqueue a list of discovered links in order, with the visited set fixed
and the queue evolving, exactly as the `for link in links` loops do. -/
def enqueueAll (visited : List String) (queue : List String)
    (links : List String) : List String :=
  links.foldl (enqueue visited) queue

/-! ## The sequential crawler of `web_crawler.py` -/

/-- State of `web_crawler.py : WebCrawler.crawl`: the `visited` set, the
`to_visit` deque (head first) and, as observation, the list of URLs for which
`fetch_page` was invoked, in order. -/
structure WCState where
  visited : List String
  to_visit : List String
  trace : List String
deriving DecidableEq

/-- One iteration of the `while` body of `web_crawler.py` lines 127-151.
The oracle `fetch` combines `fetch_page` and `extract_links`: `none` is a
failed fetch, `some links` a success with the extracted candidate links.
On success the URL is added to `visited` before links are enqueued; on
failure the URL is dropped without being added to `visited`. -/
def wcBody (fetch : String → Option (List String)) (s : WCState) : WCState :=
  match s.to_visit with
  | [] => s
  | url :: rest =>
    if url ∈ s.visited then { s with to_visit := rest }
    else
      match fetch url with
      | some links =>
        let v := addSet s.visited url
        { visited := v, to_visit := enqueueAll v rest links,
          trace := s.trace ++ [url] }
      | none =>
        { s with to_visit := rest, trace := s.trace ++ [url] }

/-- The `while to_visit and len(visited) < max_pages` loop of
`web_crawler.py`, with fuel; partial-fuel runs are exactly the intermediate
states of the crawl. -/
def wcCrawl (fetch : String → Option (List String)) (maxPages : ℕ) :
    ℕ → WCState → WCState
  | 0, s => s
  | fuel + 1, s =>
    if s.to_visit = [] ∨ maxPages ≤ s.visited.length then s
    else wcCrawl fetch maxPages fuel (wcBody fetch s)

/-- Initial crawler state: `visited = set()`, `to_visit = deque([seed_url])`. -/
def wcInit (seed : String) : WCState := ⟨[], [seed], []⟩

/-! ## The crawler of `crawl.py` (and `template/crawl_async.py`) -/

/-- State of `crawl.py : WebCrawler.crawl` and of
`template/crawl_async.py : AsyncWebCrawler.crawl`: `visited_urls`,
`to_visit`, and the ordered list of URLs handed to `get_links`
(each of which performs one logical fetch via `fetch_with_retry`). -/
structure CrawlState where
  visited : List String
  to_visit : List String
  trace : List String
deriving DecidableEq

/-- Initial state of `crawl.py : WebCrawler.crawl`. -/
def cInit (seed : String) : CrawlState := ⟨[], [seed], []⟩

/-- One iteration of the single-threaded branch of `crawl.py` lines 296-315:
pop, skip if visited, skip if disallowed by robots, otherwise mark visited,
fetch (`get_links` returns `[]` on a failed fetch) and enqueue the links. -/
def crawlSeqBody (allowed : String → Bool)
    (fetch : String → Option (List String)) (s : CrawlState) : CrawlState :=
  match s.to_visit with
  | [] => s
  | url :: rest =>
    if url ∈ s.visited then { s with to_visit := rest }
    else if ¬ allowed url then { s with to_visit := rest }
    else
      let v := addSet s.visited url
      let links := (fetch url).getD []
      { visited := v, to_visit := enqueueAll v rest links,
        trace := s.trace ++ [url] }

/-- The single-threaded crawl loop of `crawl.py` (`max_workers == 1`). -/
def crawlSeq (allowed : String → Bool)
    (fetch : String → Option (List String)) (maxPages : ℕ) :
    ℕ → CrawlState → CrawlState
  | 0, s => s
  | fuel + 1, s =>
    if s.to_visit = [] ∨ maxPages ≤ s.visited.length then s
    else crawlSeq allowed fetch maxPages fuel (crawlSeqBody allowed fetch s)

/-- Batch preparation, `crawl.py` lines 328-334: pop up to `n` URLs; a popped
URL is marked visited and appended to the batch only when it is not yet
visited and `can_fetch` allows it; otherwise it is silently dropped.
Returns (new visited set, remaining queue, batch in pop order). -/
def prepBatch (allowed : String → Bool) :
    ℕ → List String → List String → List String × List String × List String
  | 0, visited, queue => (visited, queue, [])
  | n + 1, visited, queue =>
    match queue with
    | [] => (visited, queue, [])
    | url :: rest =>
      if url ∉ visited ∧ allowed url then
        let r := prepBatch allowed n (addSet visited url) rest
        (r.1, r.2.1, url :: r.2.2)
      else
        prepBatch allowed n visited rest

/-- Result processing, `crawl.py` lines 346-353 / `crawl_async.py` lines
302-309: for each batch result in order, enqueue its links against the
(now fixed) visited set and the evolving queue. -/
def processResults (visited : List String) :
    List String → List (List String) → List String
  | queue, [] => queue
  | queue, links :: restResults =>
      processResults visited (enqueueAll visited queue links) restResults

/-- Why the batch crawl loop of `crawl.py` / `crawl_async.py` stopped. -/
inductive ExitReason where
  | frontierEmpty
  | budgetReached
  | emptyBatch
  | fuelOut
deriving DecidableEq

/-- The batch crawl loop of `crawl.py` lines 322-359 and
`crawl_async.py` lines 280-312, with fuel:
`batch_size = min(max_workers, len(to_visit), max_pages - len(visited))`,
batch preparation, the `if not batch: break` early exit, the concurrent
fetches (each batch URL incurs exactly one logical fetch, a failed one
yielding `[]` links), and result processing. The second component reports
which condition actually ended the loop. -/
def crawlBatch (allowed : String → Bool)
    (fetch : String → Option (List String)) (maxWorkers maxPages : ℕ) :
    ℕ → CrawlState → CrawlState × ExitReason
  | 0, s => (s, .fuelOut)
  | fuel + 1, s =>
    if s.to_visit = [] then (s, .frontierEmpty)
    else if maxPages ≤ s.visited.length then (s, .budgetReached)
    else
      let bsize := min maxWorkers (min s.to_visit.length
        (maxPages - s.visited.length))
      let r := prepBatch allowed bsize s.visited s.to_visit
      if r.2.2 = [] then
        ({ visited := r.1, to_visit := r.2.1, trace := s.trace }, .emptyBatch)
      else
        let results := r.2.2.map (fun u => (fetch u).getD [])
        crawlBatch allowed fetch maxWorkers maxPages fuel
          { visited := r.1, to_visit := processResults r.1 r.2.1 results,
            trace := s.trace ++ r.2.2 }

/-! ## Fetch with retry, `crawl.py` lines 121-220 and
`crawl_async.py` lines 107-201 (identical classification logic) -/

/-- Outcome of one network attempt, as seen by `fetch_with_retry`: an HTTP
status code, or one of the transport exceptions it catches. -/
inductive AttemptResult where
  | status (code : ℕ)
  | timeout
  | connError
  | reqError
deriving DecidableEq

/-- Observable result of one logical fetch: the status code of the returned
response (`none` when the function returns `None`), the number of network
attempts performed, the sleep durations inserted before each retry in order,
and the user agent in effect for each attempt in order. -/
structure FetchResult where
  response : Option ℕ
  attempts : ℕ
  sleeps : List ℚ
  uaTrail : List (Fin 3)
deriving DecidableEq

/-- The retry state machine of `crawl.py : WebCrawler.fetch_with_retry`.
Oracles: `outcome k` is the result of the attempt with `retry_count = k`;
`jitter k` is the value `random.uniform(0, 1)` drawn at that attempt;
`chooseUA k` is the index drawn by `random.choice(self.user_agents)` when
the identity is rotated at that attempt. `base` is `retry_delay_base`,
`ua` the user agent currently installed in the session. -/
def fetchWithRetry (outcome : ℕ → AttemptResult) (jitter : ℕ → ℚ)
    (chooseUA : ℕ → Fin 3) (maxRetries : ℕ) (base : ℚ) (ua : Fin 3)
    (timeout : ℚ) (retryCount : ℕ) : FetchResult :=
  match outcome retryCount with
  | .status code =>
    if code = 200 then ⟨some 200, 1, [], [ua]⟩
    else if code = 301 ∨ code = 302 then ⟨some code, 1, [], [ua]⟩
    else if code = 404 then ⟨none, 1, [], [ua]⟩
    else if code = 403 ∨ code = 401 then
      if h : retryCount < maxRetries then
        let ua2 := chooseUA retryCount
        let r := fetchWithRetry outcome jitter chooseUA maxRetries base ua2
          timeout (retryCount + 1)
        ⟨r.response, r.attempts + 1, 1 :: r.sleeps, ua :: r.uaTrail⟩
      else ⟨none, 1, [], [ua]⟩
    else if code = 429 then
      if h : retryCount < maxRetries then
        let backoff := base ^ retryCount + jitter retryCount
        let r := fetchWithRetry outcome jitter chooseUA maxRetries base ua
          timeout (retryCount + 1)
        ⟨r.response, r.attempts + 1, backoff :: r.sleeps, ua :: r.uaTrail⟩
      else ⟨none, 1, [], [ua]⟩
    else if code = 500 ∨ code = 503 then
      if h : retryCount < maxRetries then
        let backoff := base ^ retryCount
        let r := fetchWithRetry outcome jitter chooseUA maxRetries base ua
          timeout (retryCount + 1)
        ⟨r.response, r.attempts + 1, backoff :: r.sleeps, ua :: r.uaTrail⟩
      else ⟨none, 1, [], [ua]⟩
    else ⟨none, 1, [], [ua]⟩
  | .timeout =>
    if h : retryCount < maxRetries then
      let r := fetchWithRetry outcome jitter chooseUA maxRetries base ua
        (timeout + 5) (retryCount + 1)
      ⟨r.response, r.attempts + 1, 1 :: r.sleeps, ua :: r.uaTrail⟩
    else ⟨none, 1, [], [ua]⟩
  | .connError =>
    if h : retryCount < maxRetries then
      let backoff := base ^ retryCount
      let r := fetchWithRetry outcome jitter chooseUA maxRetries base ua
        timeout (retryCount + 1)
      ⟨r.response, r.attempts + 1, backoff :: r.sleeps, ua :: r.uaTrail⟩
    else ⟨none, 1, [], [ua]⟩
  | .reqError => ⟨none, 1, [], [ua]⟩
termination_by maxRetries - retryCount
decreasing_by all_goals omega

/-! ## Politeness gate: `load_robots_txt` / `can_fetch` of `crawl.py`
over the CPython `urllib.robotparser.RobotFileParser` semantics -/

/-- State of a CPython `urllib.robotparser.RobotFileParser`.
`last_checked` records whether `modified()` ever ran (in CPython a
timestamp, here the fact that it is nonzero, which is what `can_fetch`
tests); `rules` abstracts the evaluation of the parsed entries against a
user agent and a URL. -/
structure RobotFileParser where
  disallow_all : Bool
  allow_all : Bool
  last_checked : Bool
  rules : String → String → Bool

/-- A freshly constructed `RobotFileParser()`: no flags set, never checked.
With entries absent, rule evaluation would fall back to allow, but
`can_fetch` never reaches it while `last_checked` is unset. -/
def RobotFileParser.init : RobotFileParser :=
  ⟨false, false, false, fun _ _ => true⟩

/-- Result of the `read()` call on the parser: a successful fetch and parse
of robots.txt, an `HTTPError` with its code (handled inside `read`), or any
other exception, which `read` lets propagate to the caller. -/
inductive RobotsReadResult where
  | ok (rules : String → String → Bool)
  | httpError (code : ℕ)
  | raised

/-- CPython `RobotFileParser.read()`: on success the document is parsed
(and `parse` runs `modified()`, setting `last_checked`); on `HTTPError`
401/403 it sets `disallow_all`, on other 4xx it sets `allow_all`; on any
other exception the parser object is left untouched and the exception
propagates. -/
def RobotFileParser.read (rp : RobotFileParser) (res : RobotsReadResult) :
    RobotFileParser :=
  match res with
  | .ok rules =>
    { rp with
      last_checked := true
      rules := rules
      disallow_all := false
      allow_all := false }
  | .httpError code =>
    if code = 401 ∨ code = 403 then { rp with disallow_all := true }
    else if 400 ≤ code ∧ code < 500 then { rp with allow_all := true }
    else rp
  | .raised => rp

/-- CPython `RobotFileParser.can_fetch(useragent, url)`: deny if
`disallow_all`, allow if `allow_all`, deny while the file has never been
successfully read (`last_checked` unset), otherwise evaluate the parsed
entries. `crawl.py : WebCrawler.can_fetch` is a direct call to this. -/
def RobotFileParser.can_fetch (rp : RobotFileParser) (ua url : String) :
    Bool :=
  if rp.disallow_all then false
  else if rp.allow_all then true
  else if !rp.last_checked then false
  else rp.rules ua url

/-- The try/except of `crawl.py : WebCrawler.load_robots_txt` lines 49-65:
`read()` runs, and when it raises, the exception is swallowed (a message is
logged) and the parser keeps whatever state `read` left behind, which for a
propagated exception is its previous state. -/
def load_robots_txt (rp : RobotFileParser) (res : RobotsReadResult) :
    RobotFileParser :=
  RobotFileParser.read rp res

/-! ## Rate limiters, `rate_limiter.py` -/

/-- State of `TokenBucketRateLimiter`: construction sets
`tokens = max_requests` and `last_update` to the current monotonic time. -/
structure TokenBucket where
  max_requests : ℕ
  time_window : ℚ
  tokens : ℚ
  last_update : ℚ
deriving DecidableEq

/-- Constructor of `TokenBucketRateLimiter`. -/
def TokenBucket.init (maxRequests : ℕ) (timeWindow : ℚ) (now : ℚ) :
    TokenBucket :=
  ⟨maxRequests, timeWindow, maxRequests, now⟩

/-- The refill step at the top of the `while True` loop of
`TokenBucketRateLimiter.acquire` (lines 50-58):
`tokens = min(max_requests, tokens + time_passed * max_requests /
time_window)` and `last_update = now`. -/
def TokenBucket.refill (b : TokenBucket) (now : ℚ) : TokenBucket :=
  { b with
    tokens := min (b.max_requests : ℚ)
      (b.tokens + (now - b.last_update) * b.max_requests / b.time_window)
    last_update := now }

/-- One iteration of the `while True` loop of
`TokenBucketRateLimiter.acquire` at instant `now`: refill, then either
consume a token and return (`none`: admitted with no wait) or compute
`wait_time = (1 - tokens) * time_window / max_requests` and sleep
(`some wait`), after which the loop runs again. -/
def TokenBucket.acquireStep (b : TokenBucket) (now : ℚ) :
    Option ℚ × TokenBucket :=
  let b2 := b.refill now
  if 1 ≤ b2.tokens then (none, { b2 with tokens := b2.tokens - 1 })
  else (some ((1 - b2.tokens) * b2.time_window / b2.max_requests), b2)

/-- A burst of `n` consecutive `acquire()` calls all issued at the same
instant `now`, collecting the computed wait of each first loop iteration. -/
def TokenBucket.burst (b : TokenBucket) (now : ℚ) :
    ℕ → List (Option ℚ) × TokenBucket
  | 0 => ([], b)
  | n + 1 =>
    let r := b.acquireStep now
    let rest := TokenBucket.burst r.2 now n
    (r.1 :: rest.1, rest.2)

/-- Result of running `SlidingWindowRateLimiter.acquire` as the single
active task: either the call returns with the updated timestamp log, or it
never returns. `indexError` covers `max_requests = 0` with an empty log,
where `self.requests[0]` raises. -/
inductive AcquireOutcome where
  | granted (requests : List ℚ)
  | deadlock
  | indexError
deriving DecidableEq

/-- The re-entrant `return await self.acquire()` of
`SlidingWindowRateLimiter.acquire` line 106: it is executed inside
`async with self.lock`, and `asyncio.Lock` is not reentrant, so the inner
`acquire` suspends on a lock whose holder is this very task, suspended
here; the lock is never released and the call never completes. -/
def slidingAcquireOnHeldLock : AcquireOutcome := .deadlock

/-- `SlidingWindowRateLimiter.acquire` (lines 88-109) entered with the lock
free, run at instant `now` over the timestamp log `requests`: take the
lock, drop entries `≤ now - time_window` from the head, and if the
remaining count has reached `max_requests`, sleep until the oldest entry
expires and re-invoke `acquire` with the lock still held; otherwise record
`now` and return. -/
def slidingAcquire (max_requests : ℕ) (time_window : ℚ)
    (requests : List ℚ) (now : ℚ) : AcquireOutcome :=
  let pruned := requests.dropWhile (fun t => t ≤ now - time_window)
  if max_requests ≤ pruned.length then
    match pruned with
    | [] => .indexError
    | oldest :: _ =>
      if 0 < oldest + time_window - now then slidingAcquireOnHeldLock
      else .granted (pruned ++ [now])
  else .granted (pruned ++ [now])

/-- State of `LeakyBucketRateLimiter`: the rate and the last recorded
issuance instant (`None` before the first admission). -/
structure LeakyBucket where
  rate : ℚ
  last_request_time : Option ℚ
deriving DecidableEq

/-- `LeakyBucketRateLimiter.acquire` (lines 129-145) entered at instant
`now`: if a previous issuance exists and `now - last < 1 / rate`, sleep for
the difference; then record a fresh clock reading, which after an exact
sleep is `now + wait`. Returns (wait slept, updated limiter). -/
def LeakyBucket.acquire (b : LeakyBucket) (now : ℚ) : ℚ × LeakyBucket :=
  match b.last_request_time with
  | none => (0, { b with last_request_time := some now })
  | some t =>
    let spacing := 1 / b.rate
    if now - t < spacing then
      let wait := spacing - (now - t)
      (wait, { b with last_request_time := some (now + wait) })
    else
      (0, { b with last_request_time := some now })

/-! ## Invariant definitions, derived batch views, concrete oracles -/

/-- Invariant of the simple crawler state: the visited set holds no URL
twice, the frontier queue holds no URL twice, and no URL is in both. -/
def WCInv (s : WCState) : Prop :=
  s.visited.Nodup ∧ s.to_visit.Nodup ∧ ∀ u ∈ s.visited, u ∉ s.to_visit

/-- Frontier/visited invariant for the `crawl.py` state. -/
def FrontierInvC (s : CrawlState) : Prop :=
  s.visited.Nodup ∧ s.to_visit.Nodup ∧ ∀ u ∈ s.visited, u ∉ s.to_visit

/-- Full invariant: frontier discipline plus the fetch-trace facts that
every fetched URL was marked visited no later than its fetch and no URL is
fetched twice. -/
def CrawlInv (s : CrawlState) : Prop :=
  FrontierInvC s ∧ s.trace.Nodup ∧ ∀ u ∈ s.trace, u ∈ s.visited

/-- The batch prepared for the state `s` by one iteration of the batch
loop of `crawl.py` / `crawl_async.py`, with the updated visited set and
the shortened queue. -/
def batchOf (allowed : String → Bool) (maxW maxP : ℕ) (s : CrawlState) :
    List String × List String × List String :=
  prepBatch allowed
    (min maxW (min s.to_visit.length (maxP - s.visited.length)))
    s.visited s.to_visit

/-- The state from which the next batch-loop iteration starts when the
prepared batch is nonempty. -/
def batchNext (allowed : String → Bool)
    (fetch : String → Option (List String)) (maxW maxP : ℕ)
    (s : CrawlState) : CrawlState :=
  ⟨(batchOf allowed maxW maxP s).1,
    processResults (batchOf allowed maxW maxP s).1
      (batchOf allowed maxW maxP s).2.1
      ((batchOf allowed maxW maxP s).2.2.map fun u => (fetch u).getD []),
    s.trace ++ (batchOf allowed maxW maxP s).2.2⟩

/-- Fetch oracle of the C8 counterexample run: page a links to b and c,
page c links to b again, and every fetch of b fails. -/
def c8fetch : String → Option (List String) := fun u =>
  if u = "a" then some ["b", "c"]
  else if u = "c" then some ["b"] else none

/-- Robots oracle of the C10 counterexample: URLs d and e are disallowed,
everything else is allowed. -/
def c10allowed : String → Bool := fun u => !(u == "d" || u == "e")

/-- Fetch oracle of the C10 counterexample: the seed a links to d, e and
f; every other page has no links. -/
def c10fetch : String → Option (List String) := fun u =>
  if u = "a" then some ["d", "e", "f"] else some []

/-! ## Helper lemmas about the set and queue operations -/

theorem mem_addSet {s : List String} {u x : String} :
    x ∈ addSet s u ↔ x ∈ s ∨ x = u := by
  unfold addSet
  split
  · rename_i h
    constructor
    · exact Or.inl
    · rintro (hx | rfl)
      · exact hx
      · exact h
  · simp

theorem addSet_nodup {s : List String} {u : String} (h : s.Nodup) :
    (addSet s u).Nodup := by
  unfold addSet
  split
  · exact h
  · rename_i hu
    simp [List.nodup_append, h, hu]

theorem addSet_length_le (s : List String) (u : String) :
    (addSet s u).length ≤ s.length + 1 := by
  unfold addSet
  split <;> simp

theorem enqueue_mem {v q : List String} {l x : String}
    (h : x ∈ enqueue v q l) : x ∈ q ∨ x = l := by
  unfold enqueue at h
  split at h
  · exact Or.inl h
  · simpa using h

theorem enqueue_nodup {v q : List String} {l : String} (h : q.Nodup) :
    (enqueue v q l).Nodup := by
  unfold enqueue
  split
  · exact h
  · rename_i hn
    push_neg at hn
    simp [List.nodup_append, h, hn.2]

theorem enqueue_not_mem {v q : List String} {l u : String}
    (hu : u ∈ v) (hq : u ∉ q) : u ∉ enqueue v q l := by
  unfold enqueue
  split
  · exact hq
  · rename_i hn
    push_neg at hn
    intro hmem
    rcases List.mem_append.1 hmem with h | h
    · exact hq h
    · simp at h
      subst h
      exact hn.1 hu

theorem enqueueAll_nodup {v : List String} :
    ∀ (links : List String) {q : List String}, q.Nodup →
    (enqueueAll v q links).Nodup := by
  intro links
  induction links with
  | nil => intro q h; exact h
  | cons l ls ih =>
    intro q h
    exact ih (enqueue_nodup h)

theorem enqueueAll_not_mem {v : List String} {u : String} (hu : u ∈ v) :
    ∀ (links : List String) {q : List String}, u ∉ q →
    u ∉ enqueueAll v q links := by
  intro links
  induction links with
  | nil => intro q h; exact h
  | cons l ls ih =>
    intro q h
    exact ih (enqueue_not_mem hu h)

/-! ## Invariants of the `web_crawler.py` crawl -/

theorem wcBody_inv (fetch : String → Option (List String)) (s : WCState)
    (h : WCInv s) : WCInv (wcBody fetch s) := by
  obtain ⟨v, q, tr⟩ := s
  obtain ⟨hv, hq, hd⟩ := h
  cases q with
  | nil => exact ⟨hv, hq, hd⟩
  | cons url rest =>
    simp only [List.nodup_cons] at hq
    by_cases hvis : url ∈ v
    · have hred : wcBody fetch ⟨v, url :: rest, tr⟩ = ⟨v, rest, tr⟩ := by
        simp [wcBody, hvis]
      rw [hred]
      refine ⟨hv, hq.2, fun u hu => ?_⟩
      have := hd u hu
      simp at this
      exact this.2
    · cases hf : fetch url with
      | none =>
        have hred : wcBody fetch ⟨v, url :: rest, tr⟩ =
            ⟨v, rest, tr ++ [url]⟩ := by
          simp [wcBody, hvis, hf]
        rw [hred]
        refine ⟨hv, hq.2, fun u hu => ?_⟩
        have := hd u hu
        simp at this
        exact this.2
      | some links =>
        have hred : wcBody fetch ⟨v, url :: rest, tr⟩ =
            ⟨addSet v url, enqueueAll (addSet v url) rest links,
              tr ++ [url]⟩ := by
          simp [wcBody, hvis, hf]
        rw [hred]
        refine ⟨addSet_nodup hv, enqueueAll_nodup links hq.2,
          fun u hu => ?_⟩
        rcases mem_addSet.1 hu with h2 | rfl
        · have := hd u h2
          simp at this
          exact enqueueAll_not_mem hu links this.2
        · exact enqueueAll_not_mem hu links hq.1

theorem wcCrawl_inv (fetch : String → Option (List String)) (maxP : ℕ) :
    ∀ (k : ℕ) (s : WCState), WCInv s → WCInv (wcCrawl fetch maxP k s) := by
  intro k
  induction k with
  | zero => intro s h; exact h
  | succ n ih =>
    intro s h
    unfold wcCrawl
    split
    · exact h
    · exact ih _ (wcBody_inv fetch s h)

theorem wcInit_inv (seed : String) : WCInv (wcInit seed) := by
  refine ⟨List.nodup_nil, List.nodup_singleton seed, ?_⟩
  intro u hu
  simp [wcInit] at hu

theorem wcBody_length_le (fetch : String → Option (List String))
    (s : WCState) :
    (wcBody fetch s).visited.length ≤ s.visited.length + 1 := by
  obtain ⟨v, q, tr⟩ := s
  cases q with
  | nil => simp [wcBody]
  | cons url rest =>
    by_cases hvis : url ∈ v
    · simp [wcBody, if_pos hvis]
    · simp only [wcBody, if_neg hvis]
      cases hf : fetch url with
      | none => simp
      | some links => simpa using addSet_length_le v url

theorem wcCrawl_budget (fetch : String → Option (List String)) (maxP : ℕ) :
    ∀ (k : ℕ) (s : WCState), s.visited.length ≤ maxP →
    (wcCrawl fetch maxP k s).visited.length ≤ maxP := by
  intro k
  induction k with
  | zero => intro s h; exact h
  | succ n ih =>
    intro s h
    unfold wcCrawl
    split
    · exact h
    · rename_i hg
      push_neg at hg
      refine ih _ ?_
      have := wcBody_length_le fetch s
      omega

/-! ## Invariants of the `crawl.py` crawls -/

theorem crawlSeqBody_inv (allowed : String → Bool)
    (fetch : String → Option (List String)) (s : CrawlState)
    (h : CrawlInv s) : CrawlInv (crawlSeqBody allowed fetch s) := by
  obtain ⟨v, q, tr⟩ := s
  obtain ⟨⟨hv, hq, hd⟩, ht, hts⟩ := h
  cases q with
  | nil => exact ⟨⟨hv, hq, hd⟩, ht, hts⟩
  | cons url rest =>
    simp only [List.nodup_cons] at hq
    by_cases hvis : url ∈ v
    · have hred : crawlSeqBody allowed fetch ⟨v, url :: rest, tr⟩ =
          ⟨v, rest, tr⟩ := by
        simp [crawlSeqBody, hvis]
      rw [hred]
      refine ⟨⟨hv, hq.2, fun u hu => ?_⟩, ht, hts⟩
      have := hd u hu
      simp at this
      exact this.2
    · by_cases hall : allowed url
      · have hred : crawlSeqBody allowed fetch ⟨v, url :: rest, tr⟩ =
            ⟨addSet v url, enqueueAll (addSet v url) rest
              ((fetch url).getD []), tr ++ [url]⟩ := by
          simp [crawlSeqBody, hvis, hall]
        rw [hred]
        have hurltr : url ∉ tr := fun hc => hvis (hts url hc)
        refine ⟨⟨addSet_nodup hv,
          enqueueAll_nodup _ hq.2, fun u hu => ?_⟩,
          by simp [List.nodup_append, ht, hurltr],
          fun u hu => ?_⟩
        · rcases mem_addSet.1 hu with h2 | rfl
          · have := hd u h2
            simp at this
            exact enqueueAll_not_mem hu _ this.2
          · exact enqueueAll_not_mem hu _ hq.1
        · rcases List.mem_append.1 hu with h2 | h2
          · exact mem_addSet.2 (Or.inl (hts u h2))
          · simp at h2
            subst h2
            exact mem_addSet.2 (Or.inr rfl)
      · have hred : crawlSeqBody allowed fetch ⟨v, url :: rest, tr⟩ =
            ⟨v, rest, tr⟩ := by
          simp [crawlSeqBody, hvis, hall]
        rw [hred]
        refine ⟨⟨hv, hq.2, fun u hu => ?_⟩, ht, hts⟩
        have := hd u hu
        simp at this
        exact this.2

theorem crawlSeq_inv (allowed : String → Bool)
    (fetch : String → Option (List String)) (maxP : ℕ) :
    ∀ (k : ℕ) (s : CrawlState), CrawlInv s →
    CrawlInv (crawlSeq allowed fetch maxP k s) := by
  intro k
  induction k with
  | zero => intro s h; exact h
  | succ n ih =>
    intro s h
    unfold crawlSeq
    split
    · exact h
    · exact ih _ (crawlSeqBody_inv allowed fetch s h)

theorem cInit_inv (seed : String) : CrawlInv (cInit seed) := by
  refine ⟨⟨List.nodup_nil, List.nodup_singleton seed, ?_⟩,
    List.nodup_nil, ?_⟩ <;> intro u hu <;> simp [cInit] at hu

theorem crawlSeqBody_length_le (allowed : String → Bool)
    (fetch : String → Option (List String)) (s : CrawlState) :
    (crawlSeqBody allowed fetch s).visited.length ≤
      s.visited.length + 1 := by
  obtain ⟨v, q, tr⟩ := s
  cases q with
  | nil => simp [crawlSeqBody]
  | cons url rest =>
    by_cases hvis : url ∈ v
    · simp [crawlSeqBody, hvis]
    · by_cases hall : allowed url
      · simp only [crawlSeqBody, hvis, hall]
        simpa using addSet_length_le v url
      · simp [crawlSeqBody, hvis, hall]

theorem crawlSeq_budget (allowed : String → Bool)
    (fetch : String → Option (List String)) (maxP : ℕ) :
    ∀ (k : ℕ) (s : CrawlState), s.visited.length ≤ maxP →
    (crawlSeq allowed fetch maxP k s).visited.length ≤ maxP := by
  intro k
  induction k with
  | zero => intro s h; exact h
  | succ n ih =>
    intro s h
    unfold crawlSeq
    split
    · exact h
    · rename_i hg
      push_neg at hg
      refine ih _ ?_
      have := crawlSeqBody_length_le allowed fetch s
      omega

/-! ## Batch preparation and result processing -/

theorem prepBatch_spec (allowed : String → Bool) :
    ∀ (n : ℕ) (v q : List String), v.Nodup → q.Nodup →
    (∀ u ∈ v, u ∉ q) →
    (prepBatch allowed n v q).1.Nodup ∧
    (prepBatch allowed n v q).2.1.Nodup ∧
    (∀ u ∈ (prepBatch allowed n v q).1,
      u ∉ (prepBatch allowed n v q).2.1) ∧
    (prepBatch allowed n v q).1.length ≤ v.length + n ∧
    (∀ u ∈ v, u ∈ (prepBatch allowed n v q).1) ∧
    (prepBatch allowed n v q).2.2.Nodup ∧
    (∀ u ∈ (prepBatch allowed n v q).2.2,
      u ∈ (prepBatch allowed n v q).1) ∧
    (∀ u ∈ (prepBatch allowed n v q).2.2, u ∉ v) := by
  intro n
  induction n with
  | zero =>
    intro v q hv hq hd
    have hred : prepBatch allowed 0 v q = (v, q, []) := rfl
    rw [hred]
    exact ⟨hv, hq, fun u hu => hd u hu, by simp, fun u hu => hu,
      List.nodup_nil, by simp, by simp⟩
  | succ n ih =>
    intro v q hv hq hd
    cases q with
    | nil =>
      have hred : prepBatch allowed (n + 1) v [] = (v, [], []) := rfl
      rw [hred]
      exact ⟨hv, List.nodup_nil, fun u _ => by simp, by simp,
        fun u hu => hu, List.nodup_nil, by simp, by simp⟩
    | cons url rest =>
      simp only [List.nodup_cons] at hq
      by_cases hacc : url ∉ v ∧ allowed url
      · have hred : prepBatch allowed (n + 1) v (url :: rest) =
            ((prepBatch allowed n (addSet v url) rest).1,
             (prepBatch allowed n (addSet v url) rest).2.1,
             url :: (prepBatch allowed n (addSet v url) rest).2.2) := by
          simp [prepBatch, hacc]
        have hvd : ∀ u ∈ addSet v url, u ∉ rest := by
          intro u hu
          rcases mem_addSet.1 hu with h2 | rfl
          · have := hd u h2
            simp at this
            exact this.2
          · exact hq.1
        obtain ⟨a1, a2, a3, a4, a5, a6, a7, a8⟩ :=
          ih (addSet v url) rest (addSet_nodup hv) hq.2 hvd
        rw [hred]
        have hmemv : url ∈ (prepBatch allowed n (addSet v url) rest).1 :=
          a5 url (mem_addSet.2 (Or.inr rfl))
        refine ⟨a1, a2, a3, ?_, ?_, ?_, ?_, ?_⟩
        · show (prepBatch allowed n (addSet v url) rest).1.length ≤
            v.length + (n + 1)
          have hlen : (addSet v url).length ≤ v.length + 1 :=
            addSet_length_le v url
          omega
        · intro u hu
          exact a5 u (mem_addSet.2 (Or.inl hu))
        · simp only [List.nodup_cons]
          refine ⟨fun hc => ?_, a6⟩
          exact a8 url hc (mem_addSet.2 (Or.inr rfl))
        · intro u hu
          rcases List.mem_cons.1 hu with rfl | h2
          · exact hmemv
          · exact a7 u h2
        · intro u hu
          rcases List.mem_cons.1 hu with rfl | h2
          · exact hacc.1
          · intro hc
            exact a8 u h2 (mem_addSet.2 (Or.inl hc))
      · have hred : prepBatch allowed (n + 1) v (url :: rest) =
            prepBatch allowed n v rest := by
          simp only [prepBatch]
          rw [if_neg hacc]
        have hvd : ∀ u ∈ v, u ∉ rest := by
          intro u hu
          have := hd u hu
          simp at this
          exact this.2
        obtain ⟨a1, a2, a3, a4, a5, a6, a7, a8⟩ := ih v rest hv hq.2 hvd
        rw [hred]
        exact ⟨a1, a2, a3, by omega, a5, a6, a7, a8⟩

theorem processResults_nodup {v : List String} :
    ∀ (rs : List (List String)) {q : List String}, q.Nodup →
    (processResults v q rs).Nodup := by
  intro rs
  induction rs with
  | nil => intro q h; exact h
  | cons links rest ih =>
    intro q h
    exact ih (enqueueAll_nodup links h)

theorem processResults_not_mem {v : List String} {u : String} (hu : u ∈ v) :
    ∀ (rs : List (List String)) {q : List String}, u ∉ q →
    u ∉ processResults v q rs := by
  intro rs
  induction rs with
  | nil => intro q h; exact h
  | cons links rest ih =>
    intro q h
    exact ih (enqueueAll_not_mem hu links h)

theorem crawlBatch_inv (allowed : String → Bool)
    (fetch : String → Option (List String)) (maxW maxP : ℕ) :
    ∀ (k : ℕ) (s : CrawlState), CrawlInv s →
    CrawlInv (crawlBatch allowed fetch maxW maxP k s).1 := by
  intro k
  induction k with
  | zero => intro s h; exact h
  | succ n ih =>
    intro s h
    obtain ⟨⟨hv, hq, hd⟩, ht, hts⟩ := h
    obtain ⟨b1, b2, b3, b4, b5, b6, b7, b8⟩ := prepBatch_spec allowed
      (min maxW (min s.to_visit.length (maxP - s.visited.length)))
      s.visited s.to_visit hv hq hd
    unfold crawlBatch
    split
    · exact ⟨⟨hv, hq, hd⟩, ht, hts⟩
    · split
      · exact ⟨⟨hv, hq, hd⟩, ht, hts⟩
      · dsimp only
        split
        · exact ⟨⟨b1, b2, b3⟩, ht, fun u hu => b5 u (hts u hu)⟩
        · refine ih _ ⟨⟨b1, processResults_nodup _ b2, ?_⟩, ?_, ?_⟩
          · intro u hu
            exact processResults_not_mem hu _ (b3 u hu)
          · rw [List.nodup_append]
            exact ⟨ht, b6, fun u hu hc => b8 u hc (hts u hu)⟩
          · intro u hu
            rcases List.mem_append.1 hu with h2 | h2
            · exact b5 u (hts u h2)
            · exact b7 u h2

theorem crawlBatch_budget (allowed : String → Bool)
    (fetch : String → Option (List String)) (maxW maxP : ℕ) :
    ∀ (k : ℕ) (s : CrawlState), s.visited.Nodup → s.to_visit.Nodup →
    (∀ u ∈ s.visited, u ∉ s.to_visit) → s.visited.length ≤ maxP →
    (crawlBatch allowed fetch maxW maxP k s).1.visited.length ≤ maxP := by
  intro k
  induction k with
  | zero => intro s _ _ _ h; exact h
  | succ n ih =>
    intro s hv hq hd h
    obtain ⟨b1, b2, b3, b4, b5, b6, b7, b8⟩ := prepBatch_spec allowed
      (min maxW (min s.to_visit.length (maxP - s.visited.length)))
      s.visited s.to_visit hv hq hd
    have hbs : min maxW (min s.to_visit.length
        (maxP - s.visited.length)) ≤ maxP - s.visited.length := by
      omega
    unfold crawlBatch
    split
    · exact h
    · split
      · exact h
      · dsimp only
        split
        · show (prepBatch allowed (min maxW (min s.to_visit.length
            (maxP - s.visited.length))) s.visited
              s.to_visit).1.length ≤ maxP
          omega
        · refine ih _ b1 (processResults_nodup _ b2) ?_ ?_
          · intro u hu
            exact processResults_not_mem hu _ (b3 u hu)
          · show (prepBatch allowed (min maxW (min s.to_visit.length
              (maxP - s.visited.length))) s.visited
                s.to_visit).1.length ≤ maxP
            omega

/-! ## Claim theorems on the crawl loops -/

/-- C1: for every completed crawl (any seed, any `max_pages`, any
concurrency setting, any sequence of fetch and robots outcomes, any fuel),
the visited set contains no URL twice and its final size is at most
`max_pages`; this holds for the `web_crawler.py` loop, the single-threaded
`crawl.py` loop, and the batch loop of `crawl.py` / `crawl_async.py`,
where each batch size is `min(workers, frontier length, remaining budget)`. -/
theorem claim1_no_duplicate_visits_and_budget
    (fetch : String → Option (List String)) (allowed : String → Bool)
    (maxW maxP k : ℕ) (seed : String) :
    ((wcCrawl fetch maxP k (wcInit seed)).visited.Nodup ∧
      (wcCrawl fetch maxP k (wcInit seed)).visited.length ≤ maxP) ∧
    ((crawlSeq allowed fetch maxP k (cInit seed)).visited.Nodup ∧
      (crawlSeq allowed fetch maxP k (cInit seed)).visited.length ≤ maxP) ∧
    ((crawlBatch allowed fetch maxW maxP k (cInit seed)).1.visited.Nodup ∧
      (crawlBatch allowed fetch maxW maxP k
        (cInit seed)).1.visited.length ≤ maxP) := by
  refine ⟨⟨(wcCrawl_inv fetch maxP k _ (wcInit_inv seed)).1, ?_⟩,
    ⟨((crawlSeq_inv allowed fetch maxP k _ (cInit_inv seed)).1).1, ?_⟩,
    ⟨((crawlBatch_inv allowed fetch maxW maxP k _
        (cInit_inv seed)).1).1, ?_⟩⟩
  · exact wcCrawl_budget fetch maxP k _ (by simp [wcInit])
  · exact crawlSeq_budget allowed fetch maxP k _ (by simp [cInit])
  · refine crawlBatch_budget allowed fetch maxW maxP k _ ?_ ?_ ?_ ?_ <;>
      simp [cInit]

/-- C2: at every point of a crawl (any fetch and robots oracles, any fuel,
including after pages linking to themselves), the visited set and the
frontier queue are disjoint and each is duplicate-free, in the
`web_crawler.py` loop and in both `crawl.py` loops; and enqueue of a
discovered link leaves the queue unchanged when the link is visited or
queued, and otherwise appends it to the tail. -/
theorem claim2_frontier_disjointness_and_enqueue
    (fetch : String → Option (List String)) (allowed : String → Bool)
    (maxW maxP k : ℕ) (seed : String) :
    WCInv (wcCrawl fetch maxP k (wcInit seed)) ∧
    FrontierInvC (crawlSeq allowed fetch maxP k (cInit seed)) ∧
    FrontierInvC (crawlBatch allowed fetch maxW maxP k (cInit seed)).1 ∧
    ∀ (v q : List String) (l : String),
      enqueue v q l = if l ∈ v ∨ l ∈ q then q else q ++ [l] := by
  exact ⟨wcCrawl_inv fetch maxP k _ (wcInit_inv seed),
    (crawlSeq_inv allowed fetch maxP k _ (cInit_inv seed)).1,
    (crawlBatch_inv allowed fetch maxW maxP k _ (cInit_inv seed)).1,
    fun v q l => rfl⟩

/-- C8 (amended): in `crawl.py` — both the single-threaded and the batch
loop, and likewise `crawl_async.py` — every URL whose logical fetch is
performed (in particular every URL whose fetch resolves as failed) is a
member of the visited set from dequeue time on, and no URL is ever fetched
twice in the same crawl; in `web_crawler.py`, by contrast, a URL whose
fetch fails is not marked visited and may be dequeued and fetched again
(see the counterexample). -/
theorem claim8_amended_fetched_urls_visited
    (fetch : String → Option (List String)) (allowed : String → Bool)
    (maxW maxP k : ℕ) (seed : String) :
    ((crawlSeq allowed fetch maxP k (cInit seed)).trace.Nodup ∧
      ∀ u ∈ (crawlSeq allowed fetch maxP k (cInit seed)).trace,
        u ∈ (crawlSeq allowed fetch maxP k (cInit seed)).visited) ∧
    ((crawlBatch allowed fetch maxW maxP k (cInit seed)).1.trace.Nodup ∧
      ∀ u ∈ (crawlBatch allowed fetch maxW maxP k (cInit seed)).1.trace,
        u ∈ (crawlBatch allowed fetch maxW maxP k
          (cInit seed)).1.visited) := by
  exact ⟨(crawlSeq_inv allowed fetch maxP k _ (cInit_inv seed)).2,
    (crawlBatch_inv allowed fetch maxW maxP k _ (cInit_inv seed)).2⟩

/-- C8 counterexample: in `web_crawler.py`, crawling seed a with the
`c8fetch` oracle, URL b resolves as failed yet is not in the visited set at
resolution time, is later rediscovered via c, and is dequeued and fetched a
second time — the fetch trace is [a, b, c, b], which contains b twice. -/
theorem claim8_counterexample_failed_fetch_refetched :
    ("b" ∈ (wcCrawl c8fetch 10 2 (wcInit "a")).trace ∧
      "b" ∉ (wcCrawl c8fetch 10 2 (wcInit "a")).visited) ∧
    (wcCrawl c8fetch 10 10 (wcInit "a")).trace = ["a", "b", "c", "b"] ∧
    ¬ (wcCrawl c8fetch 10 10 (wcInit "a")).trace.Nodup := by
  decide

/-! ## Loop-exit characterization (C10) -/

theorem crawlSeq_succ (allowed : String → Bool)
    (fetch : String → Option (List String)) (maxP k : ℕ) (s : CrawlState) :
    crawlSeq allowed fetch maxP (k + 1) s =
      if s.to_visit = [] ∨ maxP ≤ s.visited.length then s
      else crawlSeq allowed fetch maxP k (crawlSeqBody allowed fetch s) :=
  rfl

theorem crawlSeqBody_ne (allowed : String → Bool)
    (fetch : String → Option (List String)) (s : CrawlState)
    (h : s.to_visit ≠ []) : crawlSeqBody allowed fetch s ≠ s := by
  obtain ⟨v, q, tr⟩ := s
  cases q with
  | nil => exact absurd rfl h
  | cons url rest =>
    by_cases hvis : url ∈ v
    · have hred : crawlSeqBody allowed fetch ⟨v, url :: rest, tr⟩ =
          ⟨v, rest, tr⟩ := by simp [crawlSeqBody, hvis]
      rw [hred]
      intro heq
      have h2 := congrArg (fun st => st.to_visit.length) heq
      simp at h2
    · by_cases hall : allowed url
      · have hred : crawlSeqBody allowed fetch ⟨v, url :: rest, tr⟩ =
            ⟨addSet v url, enqueueAll (addSet v url) rest
              ((fetch url).getD []), tr ++ [url]⟩ := by
          simp [crawlSeqBody, hvis, hall]
        rw [hred]
        intro heq
        have h2 := congrArg (fun st => st.trace.length) heq
        simp at h2
      · have hred : crawlSeqBody allowed fetch ⟨v, url :: rest, tr⟩ =
            ⟨v, rest, tr⟩ := by simp [crawlSeqBody, hvis, hall]
        rw [hred]
        intro heq
        have h2 := congrArg (fun st => st.to_visit.length) heq
        simp at h2

/-- The single-threaded loop of `crawl.py` can stop only because the
frontier is empty or the budget is reached: whenever one more unit of fuel
does not change the result, the result satisfies one of the two exit
conditions. -/
theorem crawlSeq_exit_or_progress (allowed : String → Bool)
    (fetch : String → Option (List String)) (maxP : ℕ) :
    ∀ (k : ℕ) (s : CrawlState),
    ((crawlSeq allowed fetch maxP k s).to_visit = [] ∨
      maxP ≤ (crawlSeq allowed fetch maxP k s).visited.length) ∨
    crawlSeq allowed fetch maxP (k + 1) s ≠
      crawlSeq allowed fetch maxP k s := by
  intro k
  induction k with
  | zero =>
    intro s
    by_cases hg : s.to_visit = [] ∨ maxP ≤ s.visited.length
    · left
      exact hg
    · right
      rw [crawlSeq_succ, if_neg hg]
      show crawlSeq allowed fetch maxP 0 (crawlSeqBody allowed fetch s) ≠ s
      push_neg at hg
      exact crawlSeqBody_ne allowed fetch s hg.1
  | succ n ih =>
    intro s
    by_cases hg : s.to_visit = [] ∨ maxP ≤ s.visited.length
    · left
      rw [crawlSeq_succ, if_pos hg]
      exact hg
    · rw [crawlSeq_succ allowed fetch maxP (n + 1) s, if_neg hg,
        crawlSeq_succ allowed fetch maxP n s, if_neg hg]
      exact ih (crawlSeqBody allowed fetch s)

theorem crawlBatch_continue (allowed : String → Bool)
    (fetch : String → Option (List String)) (maxW maxP k : ℕ)
    (s : CrawlState) (h1 : ¬ s.to_visit = [])
    (h2 : ¬ maxP ≤ s.visited.length)
    (h3 : ¬ (batchOf allowed maxW maxP s).2.2 = []) :
    crawlBatch allowed fetch maxW maxP (k + 1) s =
      crawlBatch allowed fetch maxW maxP k
        (batchNext allowed fetch maxW maxP s) := by
  unfold batchOf at h3
  conv_lhs => unfold crawlBatch
  rw [if_neg h1, if_neg h2]
  dsimp only
  rw [if_neg h3]
  rfl

theorem crawlBatch_break (allowed : String → Bool)
    (fetch : String → Option (List String)) (maxW maxP k : ℕ)
    (s : CrawlState) (h1 : ¬ s.to_visit = [])
    (h2 : ¬ maxP ≤ s.visited.length)
    (h3 : (batchOf allowed maxW maxP s).2.2 = []) :
    crawlBatch allowed fetch maxW maxP (k + 1) s =
      (⟨(batchOf allowed maxW maxP s).1, (batchOf allowed maxW maxP s).2.1,
        s.trace⟩, .emptyBatch) := by
  unfold batchOf at h3 ⊢
  conv_lhs => unfold crawlBatch
  rw [if_neg h1, if_neg h2]
  dsimp only
  rw [if_pos h3]

theorem crawlBatch_exit (allowed : String → Bool)
    (fetch : String → Option (List String)) (maxW maxP k : ℕ)
    (s : CrawlState) (hg : s.to_visit = [] ∨ maxP ≤ s.visited.length) :
    (crawlBatch allowed fetch maxW maxP (k + 1) s).1 = s := by
  conv_lhs => unfold crawlBatch
  rcases hg with h | h
  · rw [if_pos h]
  · by_cases h1 : s.to_visit = []
    · rw [if_pos h1]
    · rw [if_neg h1, if_pos h]

theorem batchNext_ne (allowed : String → Bool)
    (fetch : String → Option (List String)) (maxW maxP : ℕ)
    (s : CrawlState) (h3 : (batchOf allowed maxW maxP s).2.2 ≠ []) :
    batchNext allowed fetch maxW maxP s ≠ s := by
  intro heq
  have h2 := congrArg (fun st => st.trace.length) heq
  simp only [batchNext, List.length_append] at h2
  have := List.length_pos.2 h3
  omega

/-- When every URL is allowed by robots, a batch prepared under the
frontier invariant from a non-empty queue with budget remaining is
nonempty. -/
theorem batchOf_allowall_ne_nil
    (maxW maxP : ℕ) (hW : 1 ≤ maxW) (s : CrawlState)
    (hd : ∀ u ∈ s.visited, u ∉ s.to_visit) (h1 : s.to_visit ≠ [])
    (h2 : s.visited.length < maxP) :
    (batchOf (fun _ => true) maxW maxP s).2.2 ≠ [] := by
  obtain ⟨v, q, tr⟩ := s
  cases q with
  | nil => exact absurd rfl h1
  | cons url rest =>
    have hvis : url ∉ v := by
      intro hc
      have := hd url hc
      simp at this
    have h2v : v.length < maxP := h2
    have hbs : ∃ m, min maxW
        (min (url :: rest).length (maxP - v.length)) = m + 1 := by
      have : 1 ≤ min maxW (min (url :: rest).length (maxP - v.length)) := by
        simp only [List.length_cons]
        omega
      exact ⟨_, (Nat.succ_pred_eq_of_pos this).symm⟩
    obtain ⟨m, hm⟩ := hbs
    show (prepBatch (fun _ => true) (min maxW
      (min (CrawlState.to_visit ⟨v, url :: rest, tr⟩).length
        (maxP - v.length))) v (url :: rest)).2.2 ≠ []
    simp only [CrawlState.to_visit] at hm ⊢
    rw [hm]
    simp [prepBatch, hvis]

theorem batchNext_frontierInv (allowed : String → Bool)
    (fetch : String → Option (List String)) (maxW maxP : ℕ)
    (s : CrawlState) (hv : s.visited.Nodup) (hq : s.to_visit.Nodup)
    (hd : ∀ u ∈ s.visited, u ∉ s.to_visit) :
    (batchNext allowed fetch maxW maxP s).visited.Nodup ∧
    (batchNext allowed fetch maxW maxP s).to_visit.Nodup ∧
    ∀ u ∈ (batchNext allowed fetch maxW maxP s).visited,
      u ∉ (batchNext allowed fetch maxW maxP s).to_visit := by
  obtain ⟨b1, b2, b3, _, _, _, _, _⟩ := prepBatch_spec allowed
    (min maxW (min s.to_visit.length (maxP - s.visited.length)))
    s.visited s.to_visit hv hq hd
  exact ⟨b1, processResults_nodup _ b2,
    fun u hu => processResults_not_mem hu _ (b3 u hu)⟩

/-- When robots allows every URL, the batch loop of `crawl.py` /
`crawl_async.py` can stop only because the frontier is empty or the budget
is reached. -/
theorem crawlBatch_allowall_exit_or_progress
    (fetch : String → Option (List String)) (maxW maxP : ℕ)
    (hW : 1 ≤ maxW) :
    ∀ (k : ℕ) (s : CrawlState), s.visited.Nodup → s.to_visit.Nodup →
    (∀ u ∈ s.visited, u ∉ s.to_visit) →
    ((crawlBatch (fun _ => true) fetch maxW maxP k s).1.to_visit = [] ∨
      maxP ≤ (crawlBatch (fun _ => true) fetch maxW maxP
        k s).1.visited.length) ∨
    crawlBatch (fun _ => true) fetch maxW maxP (k + 1) s ≠
      crawlBatch (fun _ => true) fetch maxW maxP k s := by
  intro k
  induction k with
  | zero =>
    intro s hv hq hd
    by_cases hg : s.to_visit = [] ∨ maxP ≤ s.visited.length
    · left
      exact hg
    · right
      push_neg at hg
      have h2 : ¬ maxP ≤ s.visited.length := by omega
      have h3 := batchOf_allowall_ne_nil maxW maxP hW s hd hg.1 hg.2
      rw [crawlBatch_continue _ fetch maxW maxP 0 s hg.1 h2 h3]
      intro heq
      exact batchNext_ne _ fetch maxW maxP s h3 (congrArg Prod.fst heq)
  | succ n ih =>
    intro s hv hq hd
    by_cases hg : s.to_visit = [] ∨ maxP ≤ s.visited.length
    · left
      rw [crawlBatch_exit _ fetch maxW maxP n s hg]
      exact hg
    · push_neg at hg
      have h2 : ¬ maxP ≤ s.visited.length := by omega
      have h3 := batchOf_allowall_ne_nil maxW maxP hW s hd hg.1 hg.2
      rw [crawlBatch_continue _ fetch maxW maxP (n + 1) s hg.1 h2 h3,
        crawlBatch_continue _ fetch maxW maxP n s hg.1 h2 h3]
      obtain ⟨n1, n2, n3⟩ := batchNext_frontierInv (fun _ => true) fetch
        maxW maxP s hv hq hd
      exact ih (batchNext (fun _ => true) fetch maxW maxP s) n1 n2 n3

/-- C10 (amended): the sequential coordinator loop of `crawl.py` exits
exactly when the frontier is empty or `max_pages` is reached (a stabilized
run satisfies one of the two conditions, and otherwise one more unit of
fuel changes the result). The batch loop has a third exit — a prepared
batch left empty because every popped URL was already visited or
robots-disallowed (see the counterexample) — but when robots allows every
URL, from any state satisfying the frontier invariant, it too can stop
only with an empty frontier or a reached budget. -/
theorem claim10_amended_loop_exit_conditions
    (allowed : String → Bool) (fetch : String → Option (List String))
    (maxP maxW k : ℕ) (s t : CrawlState) (hW : 1 ≤ maxW)
    (hv : t.visited.Nodup) (hq : t.to_visit.Nodup)
    (hd : ∀ u ∈ t.visited, u ∉ t.to_visit) :
    (((crawlSeq allowed fetch maxP k s).to_visit = [] ∨
      maxP ≤ (crawlSeq allowed fetch maxP k s).visited.length) ∨
      crawlSeq allowed fetch maxP (k + 1) s ≠
        crawlSeq allowed fetch maxP k s) ∧
    (((crawlBatch (fun _ => true) fetch maxW maxP k t).1.to_visit = [] ∨
      maxP ≤ (crawlBatch (fun _ => true) fetch maxW maxP
        k t).1.visited.length) ∨
      crawlBatch (fun _ => true) fetch maxW maxP (k + 1) t ≠
        crawlBatch (fun _ => true) fetch maxW maxP k t) :=
  ⟨crawlSeq_exit_or_progress allowed fetch maxP k s,
    crawlBatch_allowall_exit_or_progress fetch maxW maxP hW k t hv hq hd⟩

theorem claim10_amended_loop_exit_conditions_witness :
    1 ≤ 1 ∧
    ((((crawlSeq (fun _ => true) (fun _ => none) 1 0
        (cInit "a")).to_visit = [] ∨
      1 ≤ (crawlSeq (fun _ => true) (fun _ => none) 1 0
        (cInit "a")).visited.length) ∨
      crawlSeq (fun _ => true) (fun _ => none) 1 (0 + 1) (cInit "a") ≠
        crawlSeq (fun _ => true) (fun _ => none) 1 0 (cInit "a")) ∧
    (((crawlBatch (fun _ => true) (fun _ => none) 1 1 0
        (cInit "a")).1.to_visit = [] ∨
      1 ≤ (crawlBatch (fun _ => true) (fun _ => none) 1 1 0
        (cInit "a")).1.visited.length) ∨
      crawlBatch (fun _ => true) (fun _ => none) 1 1 (0 + 1)
        (cInit "a") ≠
        crawlBatch (fun _ => true) (fun _ => none) 1 1 0 (cInit "a"))) :=
  ⟨le_refl 1,
    claim10_amended_loop_exit_conditions (fun _ => true) (fun _ => none)
      1 1 0 (cInit "a") (cInit "a") (le_refl 1) (by decide) (by decide)
      (by decide)⟩

/-- C10 counterexample: with `max_workers = 2` and `max_pages = 5`, the
batch crawl from seed a stops — with identical results for fuel 10 and
fuel 100, so the loop really exited — via the empty-batch break, leaving
the frontier non-empty (f is still queued) and the budget unreached
(1 page visited out of 5): the claimed exit condition "frontier empty or
budget reached" does not hold. -/
theorem claim10_counterexample_empty_batch_stop :
    crawlBatch c10allowed c10fetch 2 5 10 (cInit "a") =
      (⟨["a"], ["f"], ["a"]⟩, .emptyBatch) ∧
    crawlBatch c10allowed c10fetch 2 5 100 (cInit "a") =
      (⟨["a"], ["f"], ["a"]⟩, .emptyBatch) ∧
    (["f"] : List String) ≠ [] ∧ (1 : ℕ) < 5 := by
  decide

/-! ## Retry-machine lemmas (C3, C9) -/

theorem fetchWithRetry_429_step (outcome : ℕ → AttemptResult)
    (jitter : ℕ → ℚ) (chooseUA : ℕ → Fin 3) (maxRetries : ℕ) (base : ℚ)
    (ua : Fin 3) (timeout : ℚ) (retryCount : ℕ)
    (hout : outcome retryCount = .status 429)
    (hlt : retryCount < maxRetries) :
    fetchWithRetry outcome jitter chooseUA maxRetries base ua timeout
      retryCount =
      ⟨(fetchWithRetry outcome jitter chooseUA maxRetries base ua timeout
          (retryCount + 1)).response,
       (fetchWithRetry outcome jitter chooseUA maxRetries base ua timeout
          (retryCount + 1)).attempts + 1,
       (base ^ retryCount + jitter retryCount) ::
         (fetchWithRetry outcome jitter chooseUA maxRetries base ua timeout
           (retryCount + 1)).sleeps,
       ua :: (fetchWithRetry outcome jitter chooseUA maxRetries base ua
         timeout (retryCount + 1)).uaTrail⟩ := by
  conv_lhs => rw [fetchWithRetry]
  rw [hout]
  norm_num [hlt]

theorem fetchWithRetry_429_stop (outcome : ℕ → AttemptResult)
    (jitter : ℕ → ℚ) (chooseUA : ℕ → Fin 3) (maxRetries : ℕ) (base : ℚ)
    (ua : Fin 3) (timeout : ℚ) (retryCount : ℕ)
    (hout : outcome retryCount = .status 429)
    (hge : ¬ retryCount < maxRetries) :
    fetchWithRetry outcome jitter chooseUA maxRetries base ua timeout
      retryCount = ⟨none, 1, [], [ua]⟩ := by
  conv_lhs => rw [fetchWithRetry]
  rw [hout]
  norm_num [hge]

theorem fetchWithRetry_403_step (outcome : ℕ → AttemptResult)
    (jitter : ℕ → ℚ) (chooseUA : ℕ → Fin 3) (maxRetries : ℕ) (base : ℚ)
    (ua : Fin 3) (timeout : ℚ) (retryCount : ℕ)
    (hout : outcome retryCount = .status 403)
    (hlt : retryCount < maxRetries) :
    fetchWithRetry outcome jitter chooseUA maxRetries base ua timeout
      retryCount =
      ⟨(fetchWithRetry outcome jitter chooseUA maxRetries base
          (chooseUA retryCount) timeout (retryCount + 1)).response,
       (fetchWithRetry outcome jitter chooseUA maxRetries base
          (chooseUA retryCount) timeout (retryCount + 1)).attempts + 1,
       1 :: (fetchWithRetry outcome jitter chooseUA maxRetries base
          (chooseUA retryCount) timeout (retryCount + 1)).sleeps,
       ua :: (fetchWithRetry outcome jitter chooseUA maxRetries base
          (chooseUA retryCount) timeout (retryCount + 1)).uaTrail⟩ := by
  conv_lhs => rw [fetchWithRetry]
  rw [hout]
  norm_num [hlt]

theorem fetchWithRetry_403_stop (outcome : ℕ → AttemptResult)
    (jitter : ℕ → ℚ) (chooseUA : ℕ → Fin 3) (maxRetries : ℕ) (base : ℚ)
    (ua : Fin 3) (timeout : ℚ) (retryCount : ℕ)
    (hout : outcome retryCount = .status 403)
    (hge : ¬ retryCount < maxRetries) :
    fetchWithRetry outcome jitter chooseUA maxRetries base ua timeout
      retryCount = ⟨none, 1, [], [ua]⟩ := by
  conv_lhs => rw [fetchWithRetry]
  rw [hout]
  norm_num [hge]

theorem fetchWithRetry_429_run (outcome : ℕ → AttemptResult)
    (jitter : ℕ → ℚ) (chooseUA : ℕ → Fin 3) (base : ℚ) (ua : Fin 3)
    (timeout : ℚ) (hout : ∀ k, outcome k = .status 429) :
    fetchWithRetry outcome jitter chooseUA 3 base ua timeout 0 =
      ⟨none, 4,
       [base ^ 0 + jitter 0, base ^ 1 + jitter 1, base ^ 2 + jitter 2],
       [ua, ua, ua, ua]⟩ := by
  rw [fetchWithRetry_429_step outcome jitter chooseUA 3 base ua timeout 0
      (hout 0) (by norm_num),
    fetchWithRetry_429_step outcome jitter chooseUA 3 base ua timeout 1
      (hout 1) (by norm_num),
    fetchWithRetry_429_step outcome jitter chooseUA 3 base ua timeout 2
      (hout 2) (by norm_num),
    fetchWithRetry_429_stop outcome jitter chooseUA 3 base ua timeout 3
      (hout 3) (by norm_num)]

/-- C3: with `max_retries = 3`, for a URL whose every attempt yields HTTP
429, `fetch_with_retry` performs exactly 4 network attempts (the initial
one plus 3 retries) and resolves the logical fetch as failed (returns no
response), with retry i (i = 0, 1, 2) preceded by a sleep of
`retry_delay_base ^ i` plus the uniform jitter drawn in [0, 1), so each
sleep lies in `[base ^ i, base ^ i + 1)`. -/
theorem claim3_retry_exhaustion_429 (outcome : ℕ → AttemptResult)
    (jitter : ℕ → ℚ) (chooseUA : ℕ → Fin 3) (base : ℚ) (ua : Fin 3)
    (timeout : ℚ) (hout : ∀ k, outcome k = .status 429)
    (hj : ∀ k, 0 ≤ jitter k ∧ jitter k < 1) :
    (fetchWithRetry outcome jitter chooseUA 3 base ua timeout 0).attempts
      = 4 ∧
    (fetchWithRetry outcome jitter chooseUA 3 base ua timeout 0).response
      = none ∧
    (fetchWithRetry outcome jitter chooseUA 3 base ua timeout 0).sleeps =
      [base ^ 0 + jitter 0, base ^ 1 + jitter 1, base ^ 2 + jitter 2] ∧
    (base ^ 0 ≤ (fetchWithRetry outcome jitter chooseUA 3 base ua timeout
        0).sleeps.getD 0 0 ∧
      (fetchWithRetry outcome jitter chooseUA 3 base ua timeout
        0).sleeps.getD 0 0 < base ^ 0 + 1) ∧
    (base ^ 1 ≤ (fetchWithRetry outcome jitter chooseUA 3 base ua timeout
        0).sleeps.getD 1 0 ∧
      (fetchWithRetry outcome jitter chooseUA 3 base ua timeout
        0).sleeps.getD 1 0 < base ^ 1 + 1) ∧
    (base ^ 2 ≤ (fetchWithRetry outcome jitter chooseUA 3 base ua timeout
        0).sleeps.getD 2 0 ∧
      (fetchWithRetry outcome jitter chooseUA 3 base ua timeout
        0).sleeps.getD 2 0 < base ^ 2 + 1) := by
  rw [fetchWithRetry_429_run outcome jitter chooseUA base ua timeout hout]
  have h0 := hj 0
  have h1 := hj 1
  have h2 := hj 2
  refine ⟨rfl, rfl, rfl, ⟨?_, ?_⟩, ⟨?_, ?_⟩, ⟨?_, ?_⟩⟩ <;>
    simp [List.getD] <;> linarith

theorem claim3_retry_exhaustion_429_witness :
    (fetchWithRetry (fun _ => .status 429) (fun _ => 0) (fun _ => 0) 3 2
        0 10 0).attempts = 4 ∧
    (fetchWithRetry (fun _ => .status 429) (fun _ => 0) (fun _ => 0) 3 2
        0 10 0).response = none ∧
    (fetchWithRetry (fun _ => .status 429) (fun _ => 0) (fun _ => 0) 3 2
        0 10 0).sleeps = [1, 2, 4] := by
  have h := claim3_retry_exhaustion_429 (fun _ => .status 429)
    (fun _ => 0) (fun _ => 0) 2 0 10 (fun k => rfl)
    (fun k => by norm_num)
  refine ⟨h.1, h.2.1, ?_⟩
  rw [h.2.2.1]
  norm_num

theorem fetchWithRetry_403_run (outcome : ℕ → AttemptResult)
    (jitter : ℕ → ℚ) (chooseUA : ℕ → Fin 3) (base : ℚ) (ua : Fin 3)
    (timeout : ℚ) (hout : ∀ k, outcome k = .status 403) :
    fetchWithRetry outcome jitter chooseUA 3 base ua timeout 0 =
      ⟨none, 4, [1, 1, 1],
       [ua, chooseUA 0, chooseUA 1, chooseUA 2]⟩ := by
  rw [fetchWithRetry_403_step outcome jitter chooseUA 3 base ua timeout 0
      (hout 0) (by norm_num),
    fetchWithRetry_403_step outcome jitter chooseUA 3 base (chooseUA 0)
      timeout 1 (hout 1) (by norm_num),
    fetchWithRetry_403_step outcome jitter chooseUA 3 base (chooseUA 1)
      timeout 2 (hout 2) (by norm_num),
    fetchWithRetry_403_stop outcome jitter chooseUA 3 base (chooseUA 2)
      timeout 3 (hout 3) (by norm_num)]

/-- C9 (amended): on a 401/403 response with the attempt counter below
`max_retries`, the executor selects the next identity by a uniform random
draw from the fixed pool of three user agents — a draw that may coincide
with the identity used for the failed attempt (see the counterexample) —
waits a fixed 1 second, and retries; when the counter reaches
`max_retries` the fetch resolves as failed. With every attempt yielding
403 and `max_retries = 3`: four attempts under identities
`[ua, draw 0, draw 1, draw 2]`, sleeps `[1, 1, 1]`, and no response. -/
theorem claim9_amended_identity_rotation (outcome : ℕ → AttemptResult)
    (jitter : ℕ → ℚ) (chooseUA : ℕ → Fin 3) (base : ℚ) (ua : Fin 3)
    (timeout : ℚ) (hout : ∀ k, outcome k = .status 403) :
    (fetchWithRetry outcome jitter chooseUA 3 base ua timeout 0).response
      = none ∧
    (fetchWithRetry outcome jitter chooseUA 3 base ua timeout 0).attempts
      = 4 ∧
    (fetchWithRetry outcome jitter chooseUA 3 base ua timeout 0).sleeps =
      [1, 1, 1] ∧
    (fetchWithRetry outcome jitter chooseUA 3 base ua timeout 0).uaTrail =
      [ua, chooseUA 0, chooseUA 1, chooseUA 2] := by
  rw [fetchWithRetry_403_run outcome jitter chooseUA base ua timeout hout]
  exact ⟨rfl, rfl, rfl, rfl⟩

theorem claim9_amended_identity_rotation_witness :
    (fetchWithRetry (fun _ => .status 403) (fun _ => 0) (fun _ => 1) 3 2
      0 10 0).response = none ∧
    (fetchWithRetry (fun _ => .status 403) (fun _ => 0) (fun _ => 1) 3 2
      0 10 0).attempts = 4 ∧
    (fetchWithRetry (fun _ => .status 403) (fun _ => 0) (fun _ => 1) 3 2
      0 10 0).sleeps = [1, 1, 1] ∧
    (fetchWithRetry (fun _ => .status 403) (fun _ => 0) (fun _ => 1) 3 2
      0 10 0).uaTrail = [0, 1, 1, 1] :=
  claim9_amended_identity_rotation (fun _ => .status 403) (fun _ => 0)
    (fun _ => 1) 2 0 10 (fun _ => rfl)

/-- C9 counterexample: with every attempt yielding 403 and every
`random.choice` draw returning the first pool entry, the identity used for
the retry equals the identity used for the failed attempt — the trail is
[0, 0, 0, 0] — so the claim that a *different* user-agent string is
selected is false on the code, which draws from the full pool. -/
theorem claim9_counterexample_same_user_agent :
    (fetchWithRetry (fun _ => .status 403) (fun _ => 0) (fun _ => 0) 3 2
      0 10 0).uaTrail = [0, 0, 0, 0] ∧
    (fetchWithRetry (fun _ => .status 403) (fun _ => 0) (fun _ => 0) 3 2
      0 10 0).uaTrail.getD 1 0 =
      (fetchWithRetry (fun _ => .status 403) (fun _ => 0) (fun _ => 0) 3 2
        0 10 0).uaTrail.getD 0 0 := by
  have h := fetchWithRetry_403_run (fun _ => .status 403) (fun _ => 0)
    (fun _ => 0) 2 0 10 (fun k => rfl)
  rw [h]
  exact ⟨rfl, rfl⟩

/-! ## Politeness gate on load failure (C4) -/

/-- C4 (code-bug evaluation): when loading robots.txt raises — so the
try/except of `load_robots_txt` swallows the error and logs "Proceeding
without robots.txt restrictions" — the parser is left in its initial
state, in which CPython `can_fetch` answers False for *every* user agent
and URL (deny-all), not the permissive allow-all the spec (and the log
message) promise: every subsequent `can_fetch` query returns false and the
crawl skips every URL. -/
theorem claim4_robots_load_failure_denies_all (ua url : String) :
    (load_robots_txt RobotFileParser.init .raised).can_fetch ua url
      = false ∧
    ((load_robots_txt RobotFileParser.init .raised).disallow_all = false ∧
     (load_robots_txt RobotFileParser.init .raised).allow_all = false ∧
     (load_robots_txt RobotFileParser.init .raised).last_checked
       = false) :=
  ⟨rfl, rfl, rfl, rfl⟩

/-! ## Sliding-window deadlock (C5) -/

/-- C5 (code-bug evaluation): whenever the pruned timestamp log is at the
`max_requests` bound and the oldest recorded instant has not yet expired,
`SlidingWindowRateLimiter.acquire` sleeps and then re-invokes `acquire`
while still holding its own non-reentrant asyncio lock, so the call never
returns — refuting the claim that every `acquire()` eventually returns.
(The module demo `test_rate_limiters` reaches exactly this state at its
sixth sliding-window acquire.) -/
theorem claim5_sliding_window_deadlock (maxR : ℕ) (T now oldest : ℚ)
    (reqs rest : List ℚ)
    (hpruned : reqs.dropWhile (fun t => t ≤ now - T) = oldest :: rest)
    (hfull : maxR ≤ (oldest :: rest).length)
    (hwait : now < oldest + T) :
    slidingAcquire maxR T reqs now = .deadlock := by
  unfold slidingAcquire
  rw [hpruned]
  rw [if_pos hfull]
  dsimp only
  have : 0 < oldest + T - now := by linarith
  rw [if_pos this]
  rfl

theorem claim5_sliding_window_deadlock_witness :
    slidingAcquire 1 1 [0] (1 / 2) = .deadlock :=
  claim5_sliding_window_deadlock 1 1 (1 / 2) 0 [0] []
    (by norm_num [List.dropWhile]) (by norm_num) (by norm_num)

/-! ## Token bucket (C6) -/

theorem tbAcquireStep_same_instant (C : ℕ) (T tok now : ℚ)
    (hle : tok ≤ (C : ℚ)) (h1 : 1 ≤ tok) :
    TokenBucket.acquireStep ⟨C, T, tok, now⟩ now =
      (none, ⟨C, T, tok - 1, now⟩) := by
  unfold TokenBucket.acquireStep TokenBucket.refill
  have hz : now - now = 0 := by ring
  simp only [hz, zero_mul, zero_div, add_zero]
  rw [min_eq_right hle, if_pos h1]

theorem tbAcquireStep_after_idle (C : ℕ) (T tok last now : ℚ)
    (hT : 0 < T) (hC : 1 ≤ C) (htok : 0 ≤ tok)
    (hidle : T ≤ now - last) :
    TokenBucket.acquireStep ⟨C, T, tok, last⟩ now =
      (none, ⟨C, T, (C : ℚ) - 1, now⟩) := by
  unfold TokenBucket.acquireStep TokenBucket.refill
  have hfull : (C : ℚ) ≤ tok + (now - last) * C / T := by
    have hCQ : (0 : ℚ) ≤ (C : ℚ) := by positivity
    have h2 : (C : ℚ) ≤ (now - last) * C / T := by
      rw [le_div_iff hT]
      nlinarith
    linarith
  rw [min_eq_left hfull]
  have h1 : (1 : ℚ) ≤ (C : ℚ) := by exact_mod_cast hC
  rw [if_pos h1]

theorem tbBurst_drain (C : ℕ) (T now : ℚ) (hT : 0 < T) :
    ∀ (k m : ℕ), k ≤ m → m ≤ C →
    TokenBucket.burst ⟨C, T, (m : ℚ), now⟩ now k =
      (List.replicate k none, ⟨C, T, ((m - k : ℕ) : ℚ), now⟩) := by
  intro k
  induction k with
  | zero =>
    intro m _ _
    simp [TokenBucket.burst]
  | succ n ih =>
    intro m hk hm
    have hm1 : 1 ≤ m := by omega
    have h1 : (1 : ℚ) ≤ (m : ℚ) := by exact_mod_cast hm1
    have hle : (m : ℚ) ≤ (C : ℚ) := by exact_mod_cast hm
    unfold TokenBucket.burst
    rw [tbAcquireStep_same_instant C T (m : ℚ) now hle h1]
    have hcast : (m : ℚ) - 1 = ((m - 1 : ℕ) : ℚ) := by
      push_cast [hm1]
      ring
    dsimp only
    rw [hcast, ih (m - 1) (by omega) (by omega)]
    have hsub : m - 1 - n = m - (n + 1) := by omega
    rw [hsub]
    rfl

/-- C6: for the token bucket with capacity 10, after idling for at least
one full window every one of 10 burst `acquire()` calls at the same
instant is admitted immediately with no computed wait; an 11th call, a
further `d` seconds later (with less than one token refilled), computes a
wait of `(1 - d * 10 / T) * T / 10 ≈ T / 10`; and one acquire-loop
iteration always keeps the token count within `[0, capacity]`. -/
theorem claim6_token_bucket_saturation (b : TokenBucket) (now d : ℚ)
    (c : TokenBucket) (t : ℚ)
    (hC : b.max_requests = 10) (hT : 0 < b.time_window)
    (htok : 0 ≤ b.tokens) (hidle : b.time_window ≤ now - b.last_update)
    (hd0 : 0 ≤ d) (hd1 : d * 10 / b.time_window < 1)
    (hc0 : 0 ≤ c.tokens) (hc1 : c.tokens ≤ (c.max_requests : ℚ))
    (hct : c.last_update ≤ t) (hcT : 0 < c.time_window) :
    (TokenBucket.burst b now 10).1 = List.replicate 10 none ∧
    (TokenBucket.acquireStep (TokenBucket.burst b now 10).2 (now + d)).1 =
      some ((1 - d * 10 / b.time_window) * b.time_window / 10) ∧
    0 ≤ (TokenBucket.acquireStep c t).2.tokens ∧
    (TokenBucket.acquireStep c t).2.tokens ≤ (c.max_requests : ℚ) := by
  obtain ⟨C, T, tok, last⟩ := b
  subst hC
  simp only at hT htok hidle hd1 ⊢
  have hburst : TokenBucket.burst ⟨10, T, tok, last⟩ now 10 =
      (List.replicate 10 none, ⟨10, T, ((0 : ℕ) : ℚ), now⟩) := by
    show TokenBucket.burst ⟨10, T, tok, last⟩ now (9 + 1) = _
    unfold TokenBucket.burst
    rw [tbAcquireStep_after_idle 10 T tok last now hT (by norm_num) htok
      hidle]
    dsimp only
    have h9 : ((10 : ℕ) : ℚ) - 1 = ((9 : ℕ) : ℚ) := by norm_num
    rw [h9, tbBurst_drain 10 T now hT 9 9 (le_refl 9) (by norm_num)]
    rfl
  refine ⟨by rw [hburst], ?_, ?_, ?_⟩
  · rw [hburst]
    unfold TokenBucket.acquireStep TokenBucket.refill
    simp only [Nat.cast_ofNat, Nat.cast_zero]
    have hz : (0 : ℚ) + (now + d - now) * 10 / T = d * 10 / T := by
      ring
    rw [hz]
    have hle10 : d * 10 / T ≤ (10 : ℚ) := by linarith
    rw [min_eq_right hle10]
    have hnot : ¬ (1 : ℚ) ≤ d * 10 / T := by linarith
    rw [if_neg hnot]
  · unfold TokenBucket.acquireStep TokenBucket.refill
    have hrefl : 0 ≤ min (c.max_requests : ℚ)
        (c.tokens + (t - c.last_update) * c.max_requests /
          c.time_window) := by
      apply le_min
      · positivity
      · have : 0 ≤ (t - c.last_update) * c.max_requests /
            c.time_window := by
          apply div_nonneg
          · apply mul_nonneg
            · linarith
            · positivity
          · linarith
        linarith
    dsimp only
    split
    · rename_i hge
      simp only
      linarith
    · exact hrefl
  · unfold TokenBucket.acquireStep TokenBucket.refill
    have hmin : min (c.max_requests : ℚ)
        (c.tokens + (t - c.last_update) * c.max_requests /
          c.time_window) ≤ (c.max_requests : ℚ) := min_le_left _ _
    dsimp only
    split
    · simp only
      linarith
    · exact hmin

theorem claim6_token_bucket_saturation_witness :
    (TokenBucket.burst ⟨10, 1, 10, 0⟩ 1 10).1 =
      List.replicate 10 none ∧
    (TokenBucket.acquireStep (TokenBucket.burst ⟨10, 1, 10, 0⟩ 1 10).2
      (1 + 0)).1 = some ((1 - 0 * 10 / 1) * 1 / 10) ∧
    0 ≤ (TokenBucket.acquireStep ⟨10, 1, 5, 0⟩ 2).2.tokens ∧
    (TokenBucket.acquireStep ⟨10, 1, 5, 0⟩ 2).2.tokens ≤
      ((⟨10, 1, 5, 0⟩ : TokenBucket).max_requests : ℚ) :=
  claim6_token_bucket_saturation ⟨10, 1, 10, 0⟩ 1 0 ⟨10, 1, 5, 0⟩ 2
    rfl (by norm_num) (by norm_num) (by norm_num) (by norm_num)
    (by norm_num) (by norm_num) (by norm_num) (by norm_num) (by norm_num)

/-! ## Leaky bucket (C7) -/

/-- C7: for the leaky bucket with rate r, starting from a recorded
issuance at instant t and acquiring at instant `now ≥ t`: the new issuance
instant is recorded only after the wait completes (it equals `now + wait`,
the clock reading taken after the sleep), consecutive recorded issuance
instants are at least `1 / r` apart, the wait is exactly
`1 / r - (now - t)` when the elapsed time is below the spacing, and zero
otherwise. -/
theorem claim7_leaky_bucket_spacing (b : LeakyBucket) (t now : ℚ)
    (hr : 0 < b.rate) (hlast : b.last_request_time = some t)
    (hmono : t ≤ now) :
    (b.acquire now).2.last_request_time =
      some (now + (b.acquire now).1) ∧
    1 / b.rate ≤ (now + (b.acquire now).1) - t ∧
    (now - t < 1 / b.rate → (b.acquire now).1 = 1 / b.rate - (now - t)) ∧
    (¬ now - t < 1 / b.rate → (b.acquire now).1 = 0) := by
  obtain ⟨rate, last⟩ := b
  simp only at hlast hr ⊢
  subst hlast
  unfold LeakyBucket.acquire
  dsimp only
  by_cases hlt : now - t < 1 / rate
  · rw [if_pos hlt]
    refine ⟨rfl, by ring_nf; linarith, fun _ => rfl, fun hc => absurd hlt hc⟩
  · rw [if_neg hlt]
    push_neg at hlt
    exact ⟨by norm_num, by linarith, fun hc => absurd hc (not_lt.2 hlt),
      fun _ => rfl⟩

theorem claim7_leaky_bucket_spacing_witness :
    ((⟨2, some 0⟩ : LeakyBucket).acquire (1 / 4)).2.last_request_time =
      some (1 / 4 + ((⟨2, some 0⟩ : LeakyBucket).acquire (1 / 4)).1) ∧
    1 / (2 : ℚ) ≤ (1 / 4 + ((⟨2, some 0⟩ : LeakyBucket).acquire
      (1 / 4)).1) - 0 ∧
    ((1 / 4 : ℚ) - 0 < 1 / 2 →
      ((⟨2, some 0⟩ : LeakyBucket).acquire (1 / 4)).1 =
        1 / 2 - (1 / 4 - 0)) ∧
    (¬ (1 / 4 : ℚ) - 0 < 1 / 2 →
      ((⟨2, some 0⟩ : LeakyBucket).acquire (1 / 4)).1 = 0) :=
  claim7_leaky_bucket_spacing ⟨2, some 0⟩ 0 (1 / 4) (by norm_num) rfl
    (by norm_num)

end WebCrawler
